import Mathlib

/-!
Shallow embedding of `src/chapter2MultiArmedBandits/k_armed_bandits.py`
(class `KArmedBandits`), the single-component k-armed bandit simulator.

Modelling conventions:
* numpy float arrays become `List ℝ`; the per-action visit counters, which
  start at `np.zeros(k)` and are only ever incremented by exactly 1, become
  `List ℕ` (cast to `ℝ` where the code divides by them);
* random draws (`random.randint`, `random.random`, `random.normalvariate`,
  `np.random.randn`) become explicit oracle inputs: a `Rand` record per step,
  and a `List ℝ` of standard-normal draws for each (re)initialisation, with
  `normalvariate(mu, 1)` modelled as `mu + noise`;
* `np.argmax` (first occurrence of the maximum) is `argmaxIdx`;
* Python line 50 reads `self._stationary = stationary,` — the trailing comma
  stores the one-element tuple `(stationary,)`.  A tuple is truthy iff it is
  non-empty, so the embedding stores the field as a `List Bool` holding
  `[stationary]` and translates `if self._stationary` as `¬ isEmpty`;
* the `assert` statements guarding `__init__` are modelled by a constructor
  returning `Except ConfigError KArmedBandits` (the spec calls the failure
  `InvalidConfiguration`).
-/

/-- First index of the maximum of a list of reals, `np.argmax` behaviour
(ties broken by first occurrence); `0` on the empty list. -/
noncomputable def argmaxIdx : List ℝ → ℕ
  | [] => 0
  | [_] => 0
  | x :: y :: ys =>
    let j := argmaxIdx (y :: ys)
    if x < (y :: ys).getD j 0 then j + 1 else 0

/-- On a non-empty list, `argmaxIdx` returns a valid index. -/
theorem argmaxIdx_lt : ∀ (l : List ℝ), l ≠ [] → argmaxIdx l < l.length
  | [_], _ => by simp [argmaxIdx]
  | x :: y :: ys, _ => by
    have ih := argmaxIdx_lt (y :: ys) (by simp)
    simp only [List.length_cons] at ih
    by_cases hc : x < (y :: ys).getD (argmaxIdx (y :: ys)) 0
    · simp only [argmaxIdx, if_pos hc, List.length_cons]
      omega
    · simp only [argmaxIdx, if_neg hc, List.length_cons]
      omega

/-- Every entry of the list is at most the entry at `argmaxIdx`. -/
theorem getD_le_argmaxIdx : ∀ (l : List ℝ), ∀ j < l.length,
    l.getD j 0 ≤ l.getD (argmaxIdx l) 0
  | [], j, hj => by simp at hj
  | [x], j, hj => by
    have : j = 0 := by simpa using hj
    subst this
    simp [argmaxIdx]
  | x :: y :: ys, j, hj => by
    by_cases hc : x < (y :: ys).getD (argmaxIdx (y :: ys)) 0
    · have he : argmaxIdx (x :: y :: ys) = argmaxIdx (y :: ys) + 1 := by
        simp only [argmaxIdx, if_pos hc]
      rw [he, List.getD_cons_succ]
      cases j with
      | zero =>
        rw [List.getD_cons_zero]
        exact le_of_lt hc
      | succ i =>
        rw [List.getD_cons_succ]
        exact getD_le_argmaxIdx (y :: ys) i (by simpa using hj)
    · have he : argmaxIdx (x :: y :: ys) = 0 := by
        simp only [argmaxIdx, if_neg hc]
      rw [he, List.getD_cons_zero]
      cases j with
      | zero => rw [List.getD_cons_zero]
      | succ i =>
        rw [List.getD_cons_succ]
        exact le_trans (getD_le_argmaxIdx (y :: ys) i (by simpa using hj)) (not_lt.mp hc)

/-- Entries strictly before `argmaxIdx` are strictly below the maximum:
the returned index is the first occurrence of the maximum. -/
theorem getD_lt_of_lt_argmaxIdx : ∀ (l : List ℝ), ∀ j < argmaxIdx l,
    l.getD j 0 < l.getD (argmaxIdx l) 0
  | [], j, hj => by simp [argmaxIdx] at hj
  | [x], j, hj => by simp [argmaxIdx] at hj
  | x :: y :: ys, j, hj => by
    by_cases hc : x < (y :: ys).getD (argmaxIdx (y :: ys)) 0
    · have he : argmaxIdx (x :: y :: ys) = argmaxIdx (y :: ys) + 1 := by
        simp only [argmaxIdx, if_pos hc]
      rw [he] at hj ⊢
      rw [List.getD_cons_succ]
      cases j with
      | zero =>
        rw [List.getD_cons_zero]
        exact hc
      | succ i =>
        rw [List.getD_cons_succ]
        exact getD_lt_of_lt_argmaxIdx (y :: ys) i (by omega)
    · have he : argmaxIdx (x :: y :: ys) = 0 := by
        simp only [argmaxIdx, if_neg hc]
      rw [he] at hj
      omega

/-- Reading back the entry just written by `List.set`. -/
theorem getD_set_self {α : Type} (l : List α) (i : ℕ) (x d : α) (h : i < l.length) :
    (l.set i x).getD i d = x := by
  rw [List.getD_eq_getElem _ _ (by simpa using h)]
  exact List.getElem_set_self (by simpa using h)

/-- Reading an entry other than the one written by `List.set`. -/
theorem getD_set_ne {α : Type} (l : List α) (i j : ℕ) (x d : α) (hne : i ≠ j) :
    (l.set i x).getD j d = l.getD j d := by
  simp [List.getD, List.getElem?_set, hne]

/-- Incrementing one in-range entry of a list of naturals adds one to its sum. -/
theorem sum_set_getD_add_one : ∀ (l : List ℕ) (i : ℕ), i < l.length →
    (l.set i (l.getD i 0 + 1)).sum = l.sum + 1
  | [], _, h => by simp at h
  | x :: xs, 0, _ => by
    simp only [List.set_cons_zero, List.getD_cons_zero, List.sum_cons]
    omega
  | x :: xs, i + 1, h => by
    simp only [List.set_cons_succ, List.getD_cons_succ, List.sum_cons]
    rw [sum_set_getD_add_one xs i (by simpa using h)]
    omega

/-- The failure raised when construction parameters are outside their domain. -/
inductive ConfigError where
  | invalidConfiguration
deriving DecidableEq

/-- State of one `KArmedBandits` instance: configuration fields followed by
per-run mutable state, mirroring the attributes set in `__init__`. -/
structure KArmedBandits where
  k : ℕ
  alpha : ℝ
  epsilon : ℝ
  confidence : ℝ
  true_reward : ℝ
  initial_value : ℝ
  /-- Python: `self._stationary = stationary,` stores the 1-tuple `(stationary,)`. -/
  stationary : List Bool
  strategy : String
  prefer_baseline : Bool
  rounds : ℕ
  average_reward : ℝ
  current_reward : ℝ
  current_action : Option ℕ
  prefer : List ℝ
  action_counter : List ℕ
  value_estimate : List ℝ
  action_values : List ℝ
  best_action : ℕ

namespace KArmedBandits

/-- Per-step randomness oracle: `init_choice` models `random.randint(0, k-1)`
on the forced first step, `explore_u` models `random.random()`,
`explore_choice` models `random.randint(0, k-1)` on exploration, and
`noise` the standard-normal deviation of `random.normalvariate(mu, 1)`. -/
structure Rand where
  init_choice : ℕ
  explore_u : ℝ
  explore_choice : ℕ
  noise : ℝ

/-- Constructor `__init__`: validate (`assert strategy in {...}` and
`assert k > 0 and epsilon >= 0 and confidence >= 0`), then initialise all
fields; `draws` are the `np.random.randn(k)` standard-normal draws. -/
noncomputable def init (k : ℕ) (alpha epsilon confidence true_reward initial_value : ℝ)
    (stationary : Bool) (strategy : String) (prefer_baseline : Bool)
    (draws : List ℝ) : Except ConfigError KArmedBandits :=
  if (strategy = "greedy" ∨ strategy = "ucb" ∨ strategy = "prefer") ∧
      0 < k ∧ 0 ≤ epsilon ∧ 0 ≤ confidence then
    let action_values := draws.map (· + true_reward)
    .ok { k := k
          alpha := alpha
          epsilon := epsilon
          confidence := confidence
          true_reward := true_reward
          initial_value := initial_value
          stationary := [stationary]
          strategy := strategy
          prefer_baseline := prefer_baseline
          rounds := 0
          average_reward := 0
          current_reward := 0
          current_action := none
          prefer := List.replicate k 0
          action_counter := List.replicate k 0
          value_estimate := (List.replicate k 0).map (· + initial_value)
          action_values := action_values
          best_action := argmaxIdx action_values }
  else .error .invalidConfiguration

/-- Method `reset`: reinitialise the per-run mutable state and redraw
`_action_values` / `__best_action`; `draws` are the fresh
`np.random.randn(k)` draws. -/
noncomputable def reset (b : KArmedBandits) (draws : List ℝ) : KArmedBandits :=
  let action_values := draws.map (· + b.true_reward)
  { b with
    rounds := 0
    average_reward := 0
    current_reward := 0
    current_action := none
    prefer := List.replicate b.k 0
    action_counter := List.replicate b.k 0
    value_estimate := (List.replicate b.k 0).map (· + b.initial_value)
    action_values := action_values
    best_action := argmaxIdx action_values }

/-- Map with the element index, used to embed the vectorised numpy update
`self._prefer += alpha*(reward-baseline)*(one_hot-action_prob)`. -/
def mapIdxFrom (g : ℕ → ℝ → ℝ) : ℕ → List ℝ → List ℝ
  | _, [] => []
  | i, x :: xs => g i x :: mapIdxFrom g (i + 1) xs

/-- Method `__get_reward`: the reward for `action` is
`random.normalvariate(self._action_values[action], 1)`, modelled as the mean
plus the standard-normal `noise` oracle. -/
noncomputable def get_reward (b : KArmedBandits) (action : ℕ) (noise : ℝ) : ℝ :=
  b.action_values.getD action 0 + noise

/-- Method `__update_state`: increment round and visit counter, sample the
reward, record it, update the running average, then either do the
gradient-preference update or the value-estimate update. -/
noncomputable def update_state (b : KArmedBandits) (action : ℕ) (noise : ℝ) : KArmedBandits :=
  let rounds := b.rounds + 1
  let action_counter := b.action_counter.set action (b.action_counter.getD action 0 + 1)
  let step_size : ℝ :=
    if b.stationary.isEmpty then b.alpha
    else 1 / (action_counter.getD action 0 : ℝ)
  let reward := b.get_reward action noise
  let average_reward :=
    ((rounds : ℝ) - 1) / (rounds : ℝ) * b.average_reward + reward / (rounds : ℝ)
  if b.strategy = "prefer" then
    let baseline : ℝ := if b.prefer_baseline then average_reward else 0
    let soft_max_deno := (b.prefer.map Real.exp).sum
    { b with
      rounds := rounds
      action_counter := action_counter
      current_reward := reward
      current_action := some action
      average_reward := average_reward
      prefer := mapIdxFrom (fun i p =>
        p + b.alpha * (reward - baseline) *
          ((if i = action then (1 : ℝ) else 0) - Real.exp p / soft_max_deno)) 0 b.prefer }
  else
    { b with
      rounds := rounds
      action_counter := action_counter
      current_reward := reward
      current_action := some action
      average_reward := average_reward
      value_estimate := b.value_estimate.set action
        (b.value_estimate.getD action 0 +
          step_size * (reward - b.value_estimate.getD action 0)) }

/-- Method `__greedy_action`: explore with probability `epsilon`
(`random.random() < self._epsilon`), otherwise first-occurrence argmax of
the value estimates. -/
noncomputable def greedy_action (b : KArmedBandits) (u : ℝ) (choice : ℕ) : ℕ :=
  if u < b.epsilon then choice else argmaxIdx b.value_estimate

/-- The elementwise upper-confidence-bound scores
`value_estimate + confidence * sqrt(log(rounds) / (action_counter + 1e-5))`. -/
noncomputable def ucbScores (b : KArmedBandits) : List ℝ :=
  (b.value_estimate.zip b.action_counter).map (fun p =>
    p.1 + b.confidence * Real.sqrt (Real.log (b.rounds : ℝ) / ((p.2 : ℝ) + 1e-5)))

/-- Method `__ucb_action`: first-occurrence argmax of the UCB scores. -/
noncomputable def ucb_action (b : KArmedBandits) : ℕ :=
  argmaxIdx (ucbScores b)

/-- Method `__grad_bandit_action`: first-occurrence argmax of the preferences. -/
noncomputable def grad_bandit_action (b : KArmedBandits) : ℕ :=
  argmaxIdx b.prefer

/-- The local variable `action` of method `one_act`: forced uniform action on
the first round, then dispatch on the strategy. -/
noncomputable def one_act_action (b : KArmedBandits) (r : Rand) : ℕ :=
  if b.rounds = 0 then r.init_choice
  else if b.strategy = "greedy" then greedy_action b r.explore_u r.explore_choice
  else if b.strategy = "ucb" then ucb_action b
  else grad_bandit_action b

/-- Method `one_act`: select the action, then update the state with it. -/
noncomputable def one_act (b : KArmedBandits) (r : Rand) : KArmedBandits :=
  update_state b (one_act_action b r) r.noise

/-- Method `get_action_reward`: returns the last action / reward pair. -/
def get_action_reward (b : KArmedBandits) : Option ℕ × ℝ :=
  (b.current_action, b.current_reward)

/-- Length is preserved by `mapIdxFrom`. -/
theorem length_mapIdxFrom (g : ℕ → ℝ → ℝ) : ∀ (i : ℕ) (l : List ℝ),
    (mapIdxFrom g i l).length = l.length
  | _, [] => rfl
  | i, x :: xs => by
    simp only [mapIdxFrom, List.length_cons, length_mapIdxFrom g (i + 1) xs]

/-- Entrywise description of `mapIdxFrom`. -/
theorem getD_mapIdxFrom (g : ℕ → ℝ → ℝ) : ∀ (i : ℕ) (l : List ℝ) (j : ℕ), j < l.length →
    (mapIdxFrom g i l).getD j 0 = g (i + j) (l.getD j 0)
  | _, [], _, hj => by simp at hj
  | i, x :: xs, 0, _ => by
    simp only [mapIdxFrom, List.getD_cons_zero, Nat.add_zero]
  | i, x :: xs, j + 1, hj => by
    simp only [mapIdxFrom, List.getD_cons_succ]
    rw [getD_mapIdxFrom g (i + 1) xs j (by simpa using hj)]
    congr 1
    omega

theorem update_state_rounds (b : KArmedBandits) (a : ℕ) (z : ℝ) :
    (update_state b a z).rounds = b.rounds + 1 := by
  simp only [update_state]; split <;> rfl

theorem update_state_action_counter (b : KArmedBandits) (a : ℕ) (z : ℝ) :
    (update_state b a z).action_counter =
      b.action_counter.set a (b.action_counter.getD a 0 + 1) := by
  simp only [update_state]; split <;> rfl

theorem update_state_current_action (b : KArmedBandits) (a : ℕ) (z : ℝ) :
    (update_state b a z).current_action = some a := by
  simp only [update_state]; split <;> rfl

theorem update_state_current_reward (b : KArmedBandits) (a : ℕ) (z : ℝ) :
    (update_state b a z).current_reward = b.get_reward a z := by
  simp only [update_state]; split <;> rfl

theorem update_state_average_reward (b : KArmedBandits) (a : ℕ) (z : ℝ) :
    (update_state b a z).average_reward =
      (((b.rounds + 1 : ℕ) : ℝ) - 1) / ((b.rounds + 1 : ℕ) : ℝ) * b.average_reward +
        b.get_reward a z / ((b.rounds + 1 : ℕ) : ℝ) := by
  simp only [update_state]; split <;> rfl

theorem update_state_k (b : KArmedBandits) (a : ℕ) (z : ℝ) :
    (update_state b a z).k = b.k := by
  simp only [update_state]; split <;> rfl

theorem update_state_strategy (b : KArmedBandits) (a : ℕ) (z : ℝ) :
    (update_state b a z).strategy = b.strategy := by
  simp only [update_state]; split <;> rfl

theorem update_state_stationary (b : KArmedBandits) (a : ℕ) (z : ℝ) :
    (update_state b a z).stationary = b.stationary := by
  simp only [update_state]; split <;> rfl

theorem update_state_alpha (b : KArmedBandits) (a : ℕ) (z : ℝ) :
    (update_state b a z).alpha = b.alpha := by
  simp only [update_state]; split <;> rfl

theorem update_state_prefer_baseline (b : KArmedBandits) (a : ℕ) (z : ℝ) :
    (update_state b a z).prefer_baseline = b.prefer_baseline := by
  simp only [update_state]; split <;> rfl

theorem update_state_action_values (b : KArmedBandits) (a : ℕ) (z : ℝ) :
    (update_state b a z).action_values = b.action_values := by
  simp only [update_state]; split <;> rfl

theorem update_state_value_estimate (b : KArmedBandits) (a : ℕ) (z : ℝ)
    (hs : b.strategy ≠ "prefer") :
    (update_state b a z).value_estimate = b.value_estimate.set a
      (b.value_estimate.getD a 0 +
        (if b.stationary.isEmpty then b.alpha
          else 1 / ((b.action_counter.set a (b.action_counter.getD a 0 + 1)).getD a 0 : ℝ)) *
          (b.get_reward a z - b.value_estimate.getD a 0)) := by
  simp only [update_state, if_neg hs]

theorem update_state_value_estimate_of_prefer (b : KArmedBandits) (a : ℕ) (z : ℝ)
    (hs : b.strategy = "prefer") :
    (update_state b a z).value_estimate = b.value_estimate := by
  simp only [update_state, if_pos hs]

theorem update_state_prefer_of_prefer (b : KArmedBandits) (a : ℕ) (z : ℝ)
    (hs : b.strategy = "prefer") :
    (update_state b a z).prefer = mapIdxFrom (fun i p =>
      p + b.alpha * (b.get_reward a z -
          (if b.prefer_baseline then (update_state b a z).average_reward else 0)) *
        ((if i = a then (1 : ℝ) else 0) - Real.exp p / (b.prefer.map Real.exp).sum)) 0 b.prefer := by
  rw [update_state_average_reward]
  simp only [update_state, if_pos hs]

theorem update_state_prefer_of_ne (b : KArmedBandits) (a : ℕ) (z : ℝ)
    (hs : b.strategy ≠ "prefer") :
    (update_state b a z).prefer = b.prefer := by
  simp only [update_state, if_neg hs]

/-- A concrete one-armed instance (`stationary = false`, `alpha = 1/2`,
true action value 3), as produced by `init 1 (1/2) 0 1 0 0 false "greedy" true [3]`. -/
noncomputable def bSmall : KArmedBandits :=
  { k := 1, alpha := 1 / 2, epsilon := 0, confidence := 1, true_reward := 0, initial_value := 0,
    stationary := [false], strategy := "greedy", prefer_baseline := true,
    rounds := 0, average_reward := 0, current_reward := 0, current_action := none,
    prefer := [0], action_counter := [0], value_estimate := [0],
    action_values := [3], best_action := 0 }

end KArmedBandits

open KArmedBandits

/-- C2: construction succeeds exactly for configurations whose strategy is one
of the three recognised values (`"greedy"`, `"ucb"`, and the
gradient-preference strategy, spelled `"prefer"` in the source) with `k > 0`,
`epsilon ≥ 0` and `confidence ≥ 0`; for any other configuration it fails with
the `invalidConfiguration` error and no instance is produced. -/
theorem init_ok_iff (k : ℕ) (alpha epsilon confidence true_reward initial_value : ℝ)
    (stationary : Bool) (strategy : String) (prefer_baseline : Bool) (draws : List ℝ) :
    ((∃ b, init k alpha epsilon confidence true_reward initial_value stationary strategy
        prefer_baseline draws = .ok b) ↔
      ((strategy = "greedy" ∨ strategy = "ucb" ∨ strategy = "prefer") ∧
        0 < k ∧ 0 ≤ epsilon ∧ 0 ≤ confidence)) ∧
    (¬ ((strategy = "greedy" ∨ strategy = "ucb" ∨ strategy = "prefer") ∧
        0 < k ∧ 0 ≤ epsilon ∧ 0 ≤ confidence) →
      init k alpha epsilon confidence true_reward initial_value stationary strategy
        prefer_baseline draws = .error .invalidConfiguration) := by
  by_cases h : (strategy = "greedy" ∨ strategy = "ucb" ∨ strategy = "prefer") ∧
      0 < k ∧ 0 ≤ epsilon ∧ 0 ≤ confidence
  · refine ⟨⟨fun _ => h, fun _ => ⟨_, by rw [init, if_pos h]⟩⟩, fun hn => absurd h hn⟩
  · refine ⟨⟨fun hb => ?_, fun hh => absurd hh h⟩, fun _ => by rw [init, if_neg h]⟩
    obtain ⟨b, hb⟩ := hb
    rw [init, if_neg h] at hb
    exact Except.noConfusion hb

/-- C4: after `reset`, the round counter, average reward, action counters,
value estimates and preferences are reinitialised, the true action values and
the best action are redrawn together from the fresh draws, and every fixed
configuration field is unchanged. -/
theorem reset_spec (b : KArmedBandits) (draws : List ℝ) :
    (reset b draws).rounds = 0 ∧
    (reset b draws).average_reward = 0 ∧
    (reset b draws).action_counter = List.replicate b.k 0 ∧
    (reset b draws).value_estimate = List.replicate b.k b.initial_value ∧
    (reset b draws).prefer = List.replicate b.k 0 ∧
    (reset b draws).action_values = draws.map (· + b.true_reward) ∧
    (reset b draws).best_action = argmaxIdx ((reset b draws).action_values) ∧
    (reset b draws).k = b.k ∧
    (reset b draws).alpha = b.alpha ∧
    (reset b draws).epsilon = b.epsilon ∧
    (reset b draws).confidence = b.confidence ∧
    (reset b draws).true_reward = b.true_reward ∧
    (reset b draws).initial_value = b.initial_value ∧
    (reset b draws).stationary = b.stationary ∧
    (reset b draws).strategy = b.strategy ∧
    (reset b draws).prefer_baseline = b.prefer_baseline := by
  refine ⟨rfl, rfl, rfl, ?_, rfl, rfl, rfl, rfl, rfl, rfl, rfl, rfl, rfl, rfl, rfl, rfl⟩
  show (List.replicate b.k 0).map (· + b.initial_value) = List.replicate b.k b.initial_value
  simp

/-- C10: the last-action-and-reward accessor is total; it returns the sentinel
pair `(none, 0)` on a freshly constructed or freshly reset instance, and after
a step it returns exactly the action and sampled reward of that step. -/
theorem get_action_reward_spec :
    (∀ (k : ℕ) (alpha epsilon confidence true_reward initial_value : ℝ) (stationary : Bool)
        (strategy : String) (prefer_baseline : Bool) (draws : List ℝ) (b : KArmedBandits),
        init k alpha epsilon confidence true_reward initial_value stationary strategy
          prefer_baseline draws = .ok b →
        get_action_reward b = (none, 0)) ∧
    (∀ (b : KArmedBandits) (draws : List ℝ),
        get_action_reward (reset b draws) = (none, 0)) ∧
    (∀ (b : KArmedBandits) (a : ℕ) (z : ℝ),
        get_action_reward (update_state b a z) = (some a, b.get_reward a z)) := by
  refine ⟨?_, fun b draws => rfl, ?_⟩
  · intro k alpha epsilon confidence true_reward initial_value stationary strategy
      prefer_baseline draws b hb
    rw [init] at hb
    split at hb
    · cases hb
      rfl
    · exact Except.noConfusion hb
  · intro b a z
    simp only [get_action_reward, update_state_current_action, update_state_current_reward]

/-- C1 (refuting the claim: the code has a bug): an instance constructed with
`stationary = false` and `alpha = 1/2` still updates by the sample-average
`1/actionCount` step — the first visit of action 0 with sampled reward 3 sets
the estimate to 3, while the claimed constant-step rule `v + alpha*(r - v)`
yields 3/2.  Cause: line 50 `self._stationary = stationary,` stores the
one-element tuple `(stationary,)`, which is truthy even for `False`, so the
conditional on line 128 always chooses the `1/actionCount` branch. -/
theorem nonstationary_step_size_bug :
    init 1 (1 / 2) 0 1 0 0 false "greedy" true [3] = .ok bSmall ∧
    bSmall.stationary = [false] ∧
    (update_state bSmall 0 0).value_estimate.getD 0 0 = 3 ∧
    bSmall.value_estimate.getD 0 0 +
      bSmall.alpha * (bSmall.get_reward 0 0 - bSmall.value_estimate.getD 0 0) = 3 / 2 := by
  refine ⟨?_, rfl, ?_, ?_⟩
  · rw [init, if_pos (by norm_num)]
    simp [bSmall, List.replicate, argmaxIdx]
  · rw [update_state_value_estimate _ _ _ (by simp [bSmall])]
    norm_num [bSmall, get_reward, getD_set_self]
  · norm_num [bSmall, get_reward]

/-- C5: under the `prefer` strategy, every preference entry moves by
`alpha * (reward - baseline) * (one_hot - softmax)`, with the baseline the
just-updated running average reward when `prefer_baseline` is set and exactly
0 otherwise, and the softmax computed from the pre-update preferences. -/
theorem prefer_update_rule (b : KArmedBandits) (a : ℕ) (z : ℝ)
    (hs : b.strategy = "prefer") :
    ∀ i < b.prefer.length,
      (update_state b a z).prefer.getD i 0 =
        b.prefer.getD i 0 +
          b.alpha * (b.get_reward a z -
              (if b.prefer_baseline then (update_state b a z).average_reward else 0)) *
            ((if i = a then (1 : ℝ) else 0) -
              Real.exp (b.prefer.getD i 0) / (b.prefer.map Real.exp).sum) := by
  intro i hi
  rw [update_state_prefer_of_prefer b a z hs, getD_mapIdxFrom _ 0 _ i hi]
  simp only [Nat.zero_add]

/-- A concrete two-armed gradient-preference instance without baseline. -/
noncomputable def bPref : KArmedBandits :=
  { bSmall with
    k := 2
    strategy := "prefer"
    prefer_baseline := false
    alpha := 1
    prefer := [0, 0]
    action_counter := [0, 0]
    value_estimate := [0, 0]
    action_values := [2, 0] }

theorem prefer_update_rule_witness :
    (update_state bPref 0 0).prefer.getD 0 0 = 1 := by
  have h := prefer_update_rule bPref 0 0 rfl 0 (by norm_num [bPref])
  rw [h]
  norm_num [bPref, bSmall, get_reward, Real.exp_zero]

/-- Iterated `__update_state` over an explicit trace of (action, noise) pairs:
the selection policy is irrelevant to the estimator claims, so the chosen
actions are inputs. -/
noncomputable def runUpdates (b : KArmedBandits) (steps : List (ℕ × ℝ)) : KArmedBandits :=
  steps.foldl (fun s p => update_state s p.1 p.2) b

theorem runUpdates_nil (b : KArmedBandits) : runUpdates b [] = b := rfl

theorem runUpdates_cons (b : KArmedBandits) (p : ℕ × ℝ) (ps : List (ℕ × ℝ)) :
    runUpdates b (p :: ps) = runUpdates (update_state b p.1 p.2) ps := rfl

theorem get_reward_update_state (b : KArmedBandits) (a : ℕ) (z : ℝ) (a' : ℕ) (z' : ℝ) :
    (update_state b a z).get_reward a' z' = b.get_reward a' z' := by
  simp only [get_reward, update_state_action_values]

/-- Running invariant: the round counter advances by the trace length, the
true action values never move, and `rounds * average_reward` accumulates the
sum of the sampled rewards. -/
theorem runUpdates_rounds_average : ∀ (steps : List (ℕ × ℝ)) (b : KArmedBandits),
    (runUpdates b steps).rounds = b.rounds + steps.length ∧
    (runUpdates b steps).action_values = b.action_values ∧
    ((runUpdates b steps).rounds : ℝ) * (runUpdates b steps).average_reward =
      (b.rounds : ℝ) * b.average_reward + (steps.map (fun p => b.get_reward p.1 p.2)).sum
  | [], b => by simp [runUpdates]
  | p :: ps, b => by
    obtain ⟨h1, h2, h3⟩ := runUpdates_rounds_average ps (update_state b p.1 p.2)
    rw [runUpdates_cons]
    refine ⟨?_, ?_, ?_⟩
    · rw [h1, update_state_rounds, List.length_cons]
      omega
    · rw [h2, update_state_action_values]
    · rw [h3, update_state_rounds, update_state_average_reward]
      simp only [get_reward_update_state]
      rw [List.map_cons, List.sum_cons]
      have hne : ((b.rounds : ℝ) + 1) ≠ 0 := by positivity
      push_cast
      field_simp
      ring

/-- C9: starting from a fresh state (`round = 0`, `averageReward = 0`), after
any non-empty trace of steps `averageReward` is the exact arithmetic mean of
the sampled rewards: the incremental recurrence
`(round-1)/round * averageReward + reward/round` computes the running mean. -/
theorem average_reward_is_mean (b : KArmedBandits) (steps : List (ℕ × ℝ))
    (h0 : b.rounds = 0) (ha : b.average_reward = 0) (hne : steps ≠ []) :
    (runUpdates b steps).average_reward =
      (steps.map (fun p => b.get_reward p.1 p.2)).sum / (steps.length : ℝ) := by
  obtain ⟨h1, _, h3⟩ := runUpdates_rounds_average steps b
  rw [h0] at h1
  rw [ha] at h3
  simp only [Nat.zero_add] at h1
  rw [h1] at h3
  have hlen : (0 : ℕ) < steps.length := List.length_pos.mpr hne
  have hnz : ((steps.length : ℕ) : ℝ) ≠ 0 := Nat.cast_ne_zero.mpr (by omega)
  rw [eq_div_iff hnz]
  linear_combination h3

theorem average_reward_is_mean_witness :
    (runUpdates bSmall [(0, 1), (0, 0)]).average_reward = 7 / 2 := by
  have h := average_reward_is_mean bSmall [(0, 1), (0, 0)] rfl rfl (by simp)
  rw [h]
  norm_num [bSmall, get_reward]

/-- Reading any in-range entry of a replicated list. -/
theorem getD_replicate {α : Type} (n i : ℕ) (x d : α) (h : i < n) :
    (List.replicate n x).getD i d = x := by
  rw [List.getD_eq_getElem _ _ (by simpa using h)]
  exact List.getElem_replicate _ _

theorem update_state_value_estimate_length (b : KArmedBandits) (a : ℕ) (z : ℝ) :
    (update_state b a z).value_estimate.length = b.value_estimate.length := by
  by_cases hs : b.strategy = "prefer"
  · rw [update_state_value_estimate_of_prefer _ _ _ hs]
  · rw [update_state_value_estimate _ _ _ hs, List.length_set]

theorem update_state_action_counter_length (b : KArmedBandits) (a : ℕ) (z : ℝ) :
    (update_state b a z).action_counter.length = b.action_counter.length := by
  rw [update_state_action_counter, List.length_set]

/-- Running invariant for the sample-average estimator (`1/actionCount` step):
along any trace, an action's visit count grows by its number of occurrences,
and `count * estimate` accumulates the sum of that action's sampled rewards —
so the estimate is the mean of those rewards once the count is nonzero. -/
theorem runUpdates_sample_average : ∀ (steps : List (ℕ × ℝ)) (b : KArmedBandits) (a : ℕ),
    b.strategy ≠ "prefer" → b.stationary.isEmpty = false →
    a < b.value_estimate.length → b.action_counter.length = b.value_estimate.length →
    (runUpdates b steps).action_counter.getD a 0 =
        b.action_counter.getD a 0 + (steps.filter (fun p => p.1 = a)).length ∧
    ((runUpdates b steps).action_counter.getD a 0 : ℝ) *
        (runUpdates b steps).value_estimate.getD a 0 =
      (b.action_counter.getD a 0 : ℝ) * b.value_estimate.getD a 0 +
        ((steps.filter (fun p => p.1 = a)).map (fun p => b.get_reward p.1 p.2)).sum
  | [], b, a, _, _, _, _ => by simp [runUpdates]
  | p :: ps, b, a, hs, hst, hav, hlen => by
    have hs' : (update_state b p.1 p.2).strategy ≠ "prefer" := by
      rw [update_state_strategy]; exact hs
    have hst' : (update_state b p.1 p.2).stationary.isEmpty = false := by
      rw [update_state_stationary]; exact hst
    have hav' : a < (update_state b p.1 p.2).value_estimate.length := by
      rw [update_state_value_estimate_length]; exact hav
    have hlen' : (update_state b p.1 p.2).action_counter.length =
        (update_state b p.1 p.2).value_estimate.length := by
      rw [update_state_action_counter_length, update_state_value_estimate_length]; exact hlen
    obtain ⟨ih1, ih2⟩ := runUpdates_sample_average ps (update_state b p.1 p.2) a hs' hst' hav' hlen'
    rw [runUpdates_cons]
    simp only [get_reward_update_state] at ih2
    by_cases hp : p.1 = a
    · subst hp
      have hclt : p.1 < b.action_counter.length := by rw [hlen]; exact hav
      have hfil : (p :: ps).filter (fun q => q.1 = p.1) =
          p :: ps.filter (fun q => q.1 = p.1) := by
        simp [List.filter_cons]
      have hcget : (update_state b p.1 p.2).action_counter.getD p.1 0 =
          b.action_counter.getD p.1 0 + 1 := by
        rw [update_state_action_counter, getD_set_self _ _ _ _ hclt]
      have hvget : (update_state b p.1 p.2).value_estimate.getD p.1 0 =
          b.value_estimate.getD p.1 0 +
            (1 / ((b.action_counter.getD p.1 0 : ℝ) + 1)) *
              (b.get_reward p.1 p.2 - b.value_estimate.getD p.1 0) := by
        rw [update_state_value_estimate _ _ _ hs, getD_set_self _ _ _ _ hav,
          if_neg (by simp [hst]), getD_set_self _ _ _ _ hclt]
        push_cast
        ring
      constructor
      · rw [ih1, hcget, hfil, List.length_cons]
        omega
      · rw [ih2, hcget, hvget, hfil, List.map_cons, List.sum_cons]
        have hne : ((b.action_counter.getD p.1 0 : ℝ) + 1) ≠ 0 := by positivity
        push_cast
        field_simp
        ring
    · have hfil : (p :: ps).filter (fun q => q.1 = a) = ps.filter (fun q => q.1 = a) := by
        simp [List.filter_cons, hp]
      have hcget : (update_state b p.1 p.2).action_counter.getD a 0 =
          b.action_counter.getD a 0 := by
        rw [update_state_action_counter, getD_set_ne _ _ _ _ _ hp]
      have hvget : (update_state b p.1 p.2).value_estimate.getD a 0 =
          b.value_estimate.getD a 0 := by
        rw [update_state_value_estimate _ _ _ hs, getD_set_ne _ _ _ _ _ hp]
      exact ⟨by rw [ih1, hcget, hfil], by rw [ih2, hcget, hvget, hfil]⟩

/-- C8: with `stationary = true` and a non-preference strategy, after an
action has been selected `n ≥ 1` times since a fresh state, its value estimate
is exactly the arithmetic mean of the rewards sampled on those selections,
whatever other actions were interleaved — the initial value is overwritten at
the first visit. -/
theorem sample_average_estimate (b : KArmedBandits) (steps : List (ℕ × ℝ)) (a : ℕ)
    (hstat : b.stationary = [true]) (hs : b.strategy ≠ "prefer")
    (hc : b.action_counter = List.replicate b.k 0)
    (hv : b.value_estimate.length = b.k) (hak : a < b.k)
    (hn : (steps.filter (fun p => p.1 = a)) ≠ []) :
    (runUpdates b steps).value_estimate.getD a 0 =
      ((steps.filter (fun p => p.1 = a)).map (fun p => b.get_reward p.1 p.2)).sum /
        ((steps.filter (fun p => p.1 = a)).length : ℝ) := by
  obtain ⟨h1, h2⟩ := runUpdates_sample_average steps b a hs (by rw [hstat]; rfl)
    (by omega) (by rw [hc, hv, List.length_replicate])
  rw [hc, getD_replicate _ _ _ _ hak] at h1 h2
  simp only [Nat.zero_add] at h1
  rw [h1] at h2
  have hlen : 0 < (steps.filter (fun p => p.1 = a)).length := List.length_pos.mpr hn
  have hnz : (((steps.filter (fun p => p.1 = a)).length : ℕ) : ℝ) ≠ 0 :=
    Nat.cast_ne_zero.mpr (by omega)
  rw [eq_div_iff hnz]
  linear_combination h2

/-- The concrete one-armed instance `bSmall` with `stationary = true`. -/
noncomputable def bStat : KArmedBandits :=
  { bSmall with stationary := [true] }

theorem sample_average_estimate_witness :
    (runUpdates bStat [(0, 1), (0, 0)]).value_estimate.getD 0 0 = 7 / 2 := by
  have h := sample_average_estimate bStat [(0, 1), (0, 0)] 0 rfl
    (by decide) (by norm_num [bStat, bSmall, List.replicate])
    (by norm_num [bStat, bSmall]) (by norm_num [bStat, bSmall])
    (by simp [List.filter])
  rw [h]
  norm_num [bStat, bSmall, get_reward, List.filter]

theorem update_state_prefer_length (b : KArmedBandits) (a : ℕ) (z : ℝ) :
    (update_state b a z).prefer.length = b.prefer.length := by
  by_cases hs : b.strategy = "prefer"
  · rw [update_state_prefer_of_prefer _ _ _ hs, length_mapIdxFrom]
  · rw [update_state_prefer_of_ne _ _ _ hs]

theorem length_ucbScores (b : KArmedBandits) :
    (ucbScores b).length = min b.value_estimate.length b.action_counter.length := by
  simp [ucbScores]

/-- The chosen action is always in range `[0, k)` when the per-array lengths
agree with `k` and the random index draws are in range (as `random.randint(0,
k-1)` guarantees). -/
theorem one_act_action_lt (b : KArmedBandits) (r : Rand)
    (hk : 0 < b.k) (hcl : b.action_counter.length = b.k)
    (hvl : b.value_estimate.length = b.k) (hpl : b.prefer.length = b.k)
    (h1 : r.init_choice < b.k) (h2 : r.explore_choice < b.k) :
    one_act_action b r < b.k := by
  unfold one_act_action
  split_ifs with hr hg hu
  · exact h1
  · unfold greedy_action
    split_ifs
    · exact h2
    · have h := argmaxIdx_lt b.value_estimate (List.length_pos.mp (by omega))
      omega
  · unfold ucb_action
    have h := argmaxIdx_lt (ucbScores b) (List.length_pos.mp (by rw [length_ucbScores]; omega))
    rw [length_ucbScores] at h
    omega
  · unfold grad_bandit_action
    have h := argmaxIdx_lt b.prefer (List.length_pos.mp (by omega))
    omega

/-- One call of the public interface: a `reset` (with its fresh draws) or a
`one_act` step (with its random draws). -/
inductive Op where
  | do_reset (draws : List ℝ) : Op
  | do_act (r : Rand) : Op

/-- The random integer draws of an operation are in `[0, k)`, as
`random.randint(0, k-1)` guarantees. -/
def Op.valid (k : ℕ) : Op → Prop
  | .do_reset _ => True
  | .do_act r => r.init_choice < k ∧ r.explore_choice < k

noncomputable def applyOp (b : KArmedBandits) : Op → KArmedBandits
  | .do_reset draws => reset b draws
  | .do_act r => one_act b r

/-- A finite sequence of `reset` and `step` calls. -/
noncomputable def runOps (b : KArmedBandits) (ops : List Op) : KArmedBandits :=
  ops.foldl applyOp b

/-- The structural invariant: positive `k`, all per-action arrays of length
`k`, and the visit counters summing to the round counter. -/
def StateOK (b : KArmedBandits) : Prop :=
  0 < b.k ∧ b.action_counter.length = b.k ∧ b.value_estimate.length = b.k ∧
    b.prefer.length = b.k ∧ b.action_counter.sum = b.rounds

theorem update_state_StateOK (b : KArmedBandits) (a : ℕ) (z : ℝ)
    (hb : StateOK b) (ha : a < b.k) : StateOK (update_state b a z) := by
  obtain ⟨hk, hcl, hvl, hpl, hsum⟩ := hb
  refine ⟨?_, ?_, ?_, ?_, ?_⟩
  · rw [update_state_k]; exact hk
  · rw [update_state_action_counter_length, hcl, update_state_k]
  · rw [update_state_value_estimate_length, hvl, update_state_k]
  · rw [update_state_prefer_length, hpl, update_state_k]
  · rw [update_state_rounds, update_state_action_counter,
      sum_set_getD_add_one _ _ (by omega), hsum]

theorem applyOp_StateOK (b : KArmedBandits) (op : Op)
    (hb : StateOK b) (hv : Op.valid b.k op) :
    StateOK (applyOp b op) ∧ (applyOp b op).k = b.k := by
  cases op with
  | do_reset draws =>
    obtain ⟨hk, _, _, _, _⟩ := hb
    refine ⟨⟨hk, ?_, ?_, ?_, ?_⟩, rfl⟩
    · simp [applyOp, reset]
    · simp [applyOp, reset]
    · simp [applyOp, reset]
    · simp [applyOp, reset, List.sum_replicate]
  | do_act r =>
    obtain ⟨h1, h2⟩ := hv
    obtain ⟨hk, hcl, hvl, hpl, hsum⟩ := hb
    have hA := one_act_action_lt b r hk hcl hvl hpl h1 h2
    exact ⟨update_state_StateOK b _ r.noise ⟨hk, hcl, hvl, hpl, hsum⟩ hA,
      update_state_k b _ r.noise⟩

theorem runOps_StateOK : ∀ (ops : List Op) (b : KArmedBandits),
    StateOK b → (∀ op ∈ ops, Op.valid b.k op) →
    StateOK (runOps b ops) ∧ (runOps b ops).k = b.k
  | [], _, hb, _ => ⟨hb, rfl⟩
  | op :: ops, b, hb, hv => by
    obtain ⟨hs1, hs2⟩ := applyOp_StateOK b op hb (hv op (List.mem_cons_self _ _))
    obtain ⟨h1, h2⟩ := runOps_StateOK ops (applyOp b op) hs1
      (by intro o ho; rw [hs2]; exact hv o (List.mem_cons_of_mem _ ho))
    exact ⟨h1, h2.trans hs2⟩

/-- A validly constructed instance satisfies the structural invariant. -/
theorem init_StateOK (k : ℕ) (alpha epsilon confidence true_reward initial_value : ℝ)
    (stationary : Bool) (strategy : String) (prefer_baseline : Bool) (draws : List ℝ)
    (b : KArmedBandits)
    (hb : init k alpha epsilon confidence true_reward initial_value stationary strategy
        prefer_baseline draws = .ok b) :
    StateOK b ∧ b.k = k := by
  rw [init] at hb
  split at hb
  case isTrue h =>
    cases hb
    exact ⟨⟨h.2.1, by simp, by simp, by simp, by simp⟩, rfl⟩
  case isFalse => exact Except.noConfusion hb

/-- C3: from any validly constructed instance, after any finite sequence of
`reset` and `step` calls the per-action visit counters sum to the round
counter, and every counter entry is non-negative. -/
theorem counter_sum_eq_rounds (k : ℕ) (alpha epsilon confidence true_reward initial_value : ℝ)
    (stationary : Bool) (strategy : String) (prefer_baseline : Bool) (draws : List ℝ)
    (b : KArmedBandits) (ops : List Op)
    (hb : init k alpha epsilon confidence true_reward initial_value stationary strategy
        prefer_baseline draws = .ok b)
    (hops : ∀ op ∈ ops, Op.valid k op) :
    (runOps b ops).action_counter.sum = (runOps b ops).rounds ∧
    ∀ c ∈ (runOps b ops).action_counter, 0 ≤ c := by
  obtain ⟨hok, hbk⟩ := init_StateOK k alpha epsilon confidence true_reward initial_value
    stationary strategy prefer_baseline draws b hb
  obtain ⟨hs, _⟩ := runOps_StateOK ops b hok (by intro o ho; rw [hbk]; exact hops o ho)
  exact ⟨hs.2.2.2.2, fun c _ => Nat.zero_le c⟩

theorem counter_sum_eq_rounds_witness :
    (runOps bSmall [Op.do_act ⟨0, 0, 0, 0⟩, Op.do_reset [2], Op.do_act ⟨0, 0, 0, 1⟩]).action_counter.sum =
      (runOps bSmall [Op.do_act ⟨0, 0, 0, 0⟩, Op.do_reset [2], Op.do_act ⟨0, 0, 0, 1⟩]).rounds ∧
    ∀ c ∈ (runOps bSmall
        [Op.do_act ⟨0, 0, 0, 0⟩, Op.do_reset [2], Op.do_act ⟨0, 0, 0, 1⟩]).action_counter,
      0 ≤ c := by
  refine counter_sum_eq_rounds 1 (1 / 2) 0 1 0 0 false "greedy" true [3] bSmall
    [Op.do_act ⟨0, 0, 0, 0⟩, Op.do_reset [2], Op.do_act ⟨0, 0, 0, 1⟩] ?_ ?_
  · rw [init, if_pos (by norm_num)]
    simp [bSmall, List.replicate, argmaxIdx]
  · intro op hop
    simp only [List.mem_cons, List.not_mem_nil, or_false] at hop
    rcases hop with rfl | rfl | rfl
    · exact ⟨by norm_num, by norm_num⟩
    · trivial
    · exact ⟨by norm_num, by norm_num⟩

/-- Entrywise formula of the UCB scores. -/
theorem ucbScores_getD (b : KArmedBandits) (j : ℕ) (hj : j < (ucbScores b).length) :
    (ucbScores b).getD j 0 = b.value_estimate.getD j 0 +
      b.confidence * Real.sqrt (Real.log (b.rounds : ℝ) /
        ((b.action_counter.getD j 0 : ℝ) + 1e-5)) := by
  have hjv : j < b.value_estimate.length := by
    rw [length_ucbScores] at hj; omega
  have hjc : j < b.action_counter.length := by
    rw [length_ucbScores] at hj; omega
  rw [List.getD_eq_getElem _ _ hj, List.getD_eq_getElem _ _ hjv, List.getD_eq_getElem _ _ hjc]
  unfold ucbScores
  rw [List.getElem_map, List.getElem_zip]

/-- C6: under the `ucb` strategy with `round ≥ 1`, the selected action is the
first-occurring maximiser of
`valueEstimate[i] + confidenceLevel * sqrt(ln(round) / (actionCount[i] + 1e-5))`;
the score follows that formula entrywise, and whenever `ln(round) > 0` and the
confidence level is positive an unvisited action outscores any visited action
of equal value estimate. -/
theorem ucb_selection (b : KArmedBandits) (r : Rand)
    (hs : b.strategy = "ucb") (hr : 1 ≤ b.rounds)
    (hk : 0 < b.k) (hvl : b.value_estimate.length = b.k)
    (hcl : b.action_counter.length = b.k) :
    ∃ a, (one_act b r).current_action = some a ∧
      a < (ucbScores b).length ∧
      (∀ j < (ucbScores b).length, (ucbScores b).getD j 0 ≤ (ucbScores b).getD a 0) ∧
      (∀ j < a, (ucbScores b).getD j 0 < (ucbScores b).getD a 0) ∧
      (∀ j < (ucbScores b).length,
        (ucbScores b).getD j 0 = b.value_estimate.getD j 0 +
          b.confidence * Real.sqrt (Real.log (b.rounds : ℝ) /
            ((b.action_counter.getD j 0 : ℝ) + 1e-5))) ∧
      (∀ i < (ucbScores b).length, ∀ j < (ucbScores b).length,
        b.action_counter.getD i 0 = 0 → 1 ≤ b.action_counter.getD j 0 →
        b.value_estimate.getD i 0 = b.value_estimate.getD j 0 →
        0 < Real.log (b.rounds : ℝ) → 0 < b.confidence →
        (ucbScores b).getD j 0 < (ucbScores b).getD i 0) := by
  have hlen : (ucbScores b).length = b.k := by
    rw [length_ucbScores, hvl, hcl]
    omega
  have hne : ucbScores b ≠ [] := List.length_pos.mp (by omega)
  have hact : one_act_action b r = argmaxIdx (ucbScores b) := by
    unfold one_act_action
    rw [if_neg (by omega), if_neg (by rw [hs]; decide), if_pos hs]
    rfl
  refine ⟨argmaxIdx (ucbScores b),
    (update_state_current_action b _ r.noise).trans (by rw [hact]),
    argmaxIdx_lt _ hne,
    fun j hj => getD_le_argmaxIdx _ j hj,
    fun j hj => getD_lt_of_lt_argmaxIdx _ j hj,
    fun j hj => ucbScores_getD b j hj, ?_⟩
  intro i hi j hj hci hcj hvij hlog hconf
  rw [ucbScores_getD b i hi, ucbScores_getD b j hj, hci, hvij]
  apply add_lt_add_left
  apply mul_lt_mul_of_pos_left _ hconf
  apply Real.sqrt_lt_sqrt
  · apply div_nonneg (le_of_lt hlog)
    positivity
  · apply div_lt_div_of_pos_left hlog (by norm_num)
    have : (1 : ℝ) ≤ (b.action_counter.getD j 0 : ℝ) := by exact_mod_cast hcj
    push_cast
    linarith

/-- A concrete two-armed UCB instance after one round, both arms visited once. -/
noncomputable def bUcb : KArmedBandits :=
  { bSmall with
    k := 2
    strategy := "ucb"
    rounds := 1
    value_estimate := [0, 1]
    action_counter := [1, 1]
    prefer := [0, 0]
    action_values := [0, 0] }

/-- A randomness oracle whose every draw is zero. -/
noncomputable def rZero : Rand := ⟨0, 0, 0, 0⟩

theorem ucb_selection_witness :
    (one_act bUcb rZero).current_action = some 1 := by
  obtain ⟨a, hca, hlt, hmax, _, _, _⟩ := ucb_selection bUcb rZero rfl
    (by norm_num [bUcb, bSmall]) (by norm_num [bUcb, bSmall])
    (by norm_num [bUcb, bSmall]) (by norm_num [bUcb, bSmall])
  have hscore : ucbScores bUcb = [0, 1] := by
    have hr1 : (bUcb.rounds : ℝ) = 1 := by norm_num [bUcb, bSmall]
    show ([(0, 1), (1, 1)] : List (ℝ × ℕ)).map _ = [0, 1]
    norm_num [hr1, Real.log_one, Real.sqrt_zero]
  rw [hscore] at hlt hmax
  norm_num at hlt
  interval_cases a
  · exfalso
    have h1 := hmax 1 (by norm_num)
    norm_num at h1
  · exact hca

/-- C7: under the `greedy` strategy with `explorationEpsilon = 0` and
`round ≥ 1`, the selected action is the first-occurring index of the maximum
value estimate (so a non-maximal action is never selected), while on the
forced first step (`round = 0`) the action is the uniform random draw over
`[0, k)`. -/
theorem greedy_selection (b : KArmedBandits) (r : Rand)
    (hs : b.strategy = "greedy") (he : b.epsilon = 0) (hu : 0 ≤ r.explore_u) :
    (b.rounds = 0 → (one_act b r).current_action = some r.init_choice) ∧
    (1 ≤ b.rounds → b.value_estimate ≠ [] →
      ∃ a, (one_act b r).current_action = some a ∧
        a < b.value_estimate.length ∧
        (∀ j < b.value_estimate.length,
          b.value_estimate.getD j 0 ≤ b.value_estimate.getD a 0) ∧
        (∀ j < a, b.value_estimate.getD j 0 < b.value_estimate.getD a 0)) := by
  constructor
  · intro h0
    have hact : one_act_action b r = r.init_choice := by
      unfold one_act_action
      rw [if_pos h0]
    exact (update_state_current_action b _ r.noise).trans (by rw [hact])
  · intro hr hne
    have hact : one_act_action b r = argmaxIdx b.value_estimate := by
      unfold one_act_action
      rw [if_neg (by omega), if_pos hs]
      unfold greedy_action
      rw [if_neg (by rw [he]; exact not_lt.mpr hu)]
    exact ⟨argmaxIdx b.value_estimate,
      (update_state_current_action b _ r.noise).trans (by rw [hact]),
      argmaxIdx_lt _ hne,
      fun j hj => getD_le_argmaxIdx _ j hj,
      fun j hj => getD_lt_of_lt_argmaxIdx _ j hj⟩

/-- The concrete two-armed instance `bUcb`, but with the greedy strategy. -/
noncomputable def bGreedy : KArmedBandits :=
  { bUcb with strategy := "greedy" }

theorem greedy_selection_witness :
    (one_act bGreedy rZero).current_action = some 1 := by
  obtain ⟨_, hmain⟩ := greedy_selection bGreedy rZero rfl rfl (by norm_num [rZero])
  obtain ⟨a, hca, hlt, hmax, _⟩ := hmain (by norm_num [bGreedy, bUcb, bSmall])
    (by simp [bGreedy, bUcb, bSmall])
  have hv : bGreedy.value_estimate = [0, 1] := rfl
  rw [hv] at hlt hmax
  norm_num at hlt
  interval_cases a
  · exfalso
    have h1 := hmax 1 (by norm_num)
    norm_num at h1
  · exact hca
